import Mathlib

/-!
Shallow embedding of the screenplay-editor core: the block editing state
machine (Enter / Backspace / content change / format change), the history
stack, the comment highlight merge engine, the comment card layout engine,
and scene reordering.  Each definition is translated from the repository's
TypeScript source; external nondeterminism (generated uuids, the DOM
element text, the format classifier utility) is threaded through as
explicit parameters.
-/

/-- A screenplay block as declared in the source (`export interface Block`):
an id, a free-form type string ("scene-heading", "action", "character",
"dialogue", "parenthetical", "transition", "shot") and the plain-text
content.  The derived display field `number` is recomputed by
`updateBlockNumbers` and never consulted by the embedded operations, so it
is omitted. -/
structure Block where
  id : String
  type : String
  content : String
deriving Repr, DecidableEq

/-- Result of a structural key handler: the new block store plus the id of
the block the caller is asked to focus. -/
structure EnterResult where
  blocks : List Block
  focusedId : String
deriving Repr, DecidableEq

/-- JS `String.prototype.trim()`: strip leading and trailing whitespace.
(Implemented over the character list so that proofs can evaluate it; Lean's
built-in `String.trim` does not reduce in the kernel.) -/
def trimJS (s : String) : String :=
  ⟨((s.data.dropWhile Char.isWhitespace).reverse.dropWhile Char.isWhitespace).reverse⟩

/-- JS `String.prototype.toUpperCase()` (ASCII, per `Char.toUpper`). -/
def toUpperJS (s : String) : String :=
  ⟨s.data.map Char.toUpper⟩

/-- JS `content.substring(0, n)`. -/
def takeJS (s : String) (n : Nat) : String :=
  ⟨s.data.take n⟩

/-- JS `content.substring(n)`. -/
def dropJS (s : String) (n : Nat) : String :=
  ⟨s.data.drop n⟩

/-- JS `String.prototype.startsWith(p)`. -/
def startsWithJS (s p : String) : Bool :=
  p.data.isPrefixOf s.data

/-- JS `String.prototype.endsWith(p)`. -/
def endsWithJS (s p : String) : Bool :=
  p.data.isSuffixOf s.data

/-- Drop the final character (used to strip a trailing `)`). -/
def dropLastJS (s : String) : String :=
  ⟨s.data.dropLast⟩

/-- `textAfter.replace(/^\)/, '')`: drop one leading close paren. -/
def stripLeadingCloseParen (s : String) : String :=
  if startsWithJS s ")" then dropJS s 1 else s

/-- `s.replace(/^\(|\)$/g, '')`: drop one leading `(` if present and one
trailing `)` if present. -/
def stripParens (s : String) : String :=
  let s1 := if startsWithJS s "(" then dropJS s 1 else s
  if endsWithJS s1 ")" then dropLastJS s1 else s1

/-- `handleEnterKey` from `useEnterKeyLogic` (src/unnamed/part_004).
`content` is the element's text, `caretPos` the caret offset inside it,
`isDoubleEnter` the session-global `now - lastKeyPressTime < 500` test
already evaluated, `newId` the uuid minted for the block the branch
creates, and `getNextBlockType` the classifier utility imported from
`blockUtils` (not part of this file's claims, so kept as a parameter). -/
def handleEnterKey (blocks : List Block) (blockId : String) (content : String)
    (caretPos : Nat) (isDoubleEnter : Bool) (newId : String)
    (getNextBlockType : String → String → Bool → String) : EnterResult :=
  match blocks.find? (fun b => b.id = blockId) with
  | none => ⟨blocks, blockId⟩
  | some currentBlock =>
    let textBefore := takeJS content caretPos
    let textAfter := dropJS content caretPos
    if currentBlock.type = "transition" then
      let newBlock : Block := ⟨newId, "scene-heading", ""⟩
      match blocks.findIdx? (fun b => b.id = blockId) with
      | none => ⟨blocks, blockId⟩
      | some currentIndex =>
        let updated :=
          if trimJS textBefore ≠ "" then
            blocks.set currentIndex { currentBlock with content := toUpperJS (trimJS textBefore) }
          else
            blocks.set currentIndex { currentBlock with content := toUpperJS (trimJS currentBlock.content) }
        ⟨updated.insertIdx (currentIndex + 1) newBlock, newId⟩
    else if currentBlock.type = "character" then
      match blocks.findIdx? (fun b => b.id = blockId) with
      | none => ⟨blocks, blockId⟩
      | some currentIndex =>
        if trimJS textBefore = "" ∧ trimJS textAfter = "" then
          -- empty character cue: replace the block itself, toggling against the next block
          let newBlockType :=
            match blocks[currentIndex + 1]? with
            | some nextBlock => if nextBlock.type = "dialogue" then "action" else "dialogue"
            | none => "dialogue"
          let newBlock : Block := ⟨newId, newBlockType, ""⟩
          ⟨blocks.set currentIndex newBlock, newId⟩
        else if isDoubleEnter then
          let newBlock : Block := ⟨newId, "action", trimJS textAfter⟩
          let updated := blocks.set currentIndex { currentBlock with content := toUpperJS (trimJS textBefore) }
          ⟨updated.insertIdx (currentIndex + 1) newBlock, newId⟩
        else
          let newBlock : Block := ⟨newId, "dialogue", trimJS textAfter⟩
          let updated := blocks.set currentIndex { currentBlock with content := toUpperJS (trimJS textBefore) }
          ⟨updated.insertIdx (currentIndex + 1) newBlock, newId⟩
    else if isDoubleEnter ∧ currentBlock.type = "dialogue" ∧ trimJS textBefore = "" then
      match blocks.findIdx? (fun b => b.id = blockId) with
      | none => ⟨blocks, blockId⟩
      | some currentIndex =>
        let newBlock : Block := ⟨newId, "action", trimJS textAfter⟩
        if trimJS textBefore = "" ∧ trimJS textAfter = "" then
          ⟨blocks.set currentIndex newBlock, newId⟩
        else
          let updated := blocks.set currentIndex { currentBlock with content := trimJS textBefore }
          ⟨updated.insertIdx (currentIndex + 1) newBlock, newId⟩
    else if currentBlock.type = "parenthetical" then
      match blocks.findIdx? (fun b => b.id = blockId) with
      | none => ⟨blocks, blockId⟩
      | some currentIndex =>
        let finalContent :=
          if startsWithJS textBefore "(" ∧ ¬ endsWithJS textBefore ")" then textBefore ++ ")"
          else if ¬ startsWithJS textBefore "(" ∧ endsWithJS textBefore ")" then "(" ++ textBefore
          else textBefore
        let updated := blocks.set currentIndex { currentBlock with content := finalContent }
        let newBlock : Block := ⟨newId, "dialogue", trimJS (stripLeadingCloseParen textAfter)⟩
        ⟨updated.insertIdx (currentIndex + 1) newBlock, newId⟩
    else
      let nextBlockType := getNextBlockType currentBlock.type textBefore false
      match blocks.findIdx? (fun b => b.id = blockId) with
      | none => ⟨blocks, blockId⟩
      | some currentIndex =>
        let updated := blocks.set currentIndex { currentBlock with content := textBefore }
        let newBlock : Block := ⟨newId, nextBlockType, textAfter⟩
        ⟨updated.insertIdx (currentIndex + 1) newBlock, newId⟩

/-- `handleBackspaceInEmptyBlock` from `useBackspaceKeyLogic`
(src/unnamed/part_009): refuses to delete when at most one block remains or
the target is the first block (or absent, `findIndex <= 0` covering `-1`),
otherwise removes the blocks whose id matches.  Second component is the
handler's boolean return. -/
def handleBackspaceInEmptyBlock (blocks : List Block) (blockId : String) :
    List Block × Bool :=
  if blocks.length ≤ 1 then (blocks, false)
  else
    match blocks.findIdx? (fun b => b.id = blockId) with
    | none => (blocks, false)
    | some currentIndex =>
      if currentIndex = 0 then (blocks, false)
      else (blocks.filter (fun b => b.id ≠ blockId), true)

/-- Result of a content change: the new store plus the auto-focus target
(the auto-inserted dialogue block's id, when one was inserted). -/
structure ContentChangeResult where
  blocks : List Block
  focus : Option String
deriving Repr, DecidableEq

/-- The `effectiveType` computation of `handleContentChange`: the forced
type when supplied, else the classifier's verdict, else the block's current
type. -/
def effectiveTypeOf (forcedType : Option String)
    (detectFormat : String → Option String) (newContent currentType : String) :
    String :=
  match forcedType with
  | some t => t
  | none =>
    match detectFormat newContent with
    | some t => t
    | none => currentType

/-- `handleContentChange` from `useBlockContentSync` (src/unnamed/part_005).
`detectFormat` is the classifier utility from `blockUtils`, kept as a
parameter; `newId` the uuid minted for an auto-inserted dialogue block.
The Firestore scene-heading registry sync is external persistence and does
not touch the block store, so it has no counterpart here. -/
def handleContentChange (blocks : List Block) (id newContent : String)
    (forcedType : Option String) (detectFormat : String → Option String)
    (newId : String) : ContentChangeResult :=
  match blocks.findIdx? (fun b => b.id = id) with
  | none => ⟨blocks, none⟩
  | some currentBlockIndex =>
    match blocks[currentBlockIndex]? with
    | none => ⟨blocks, none⟩
    | some currentBlock =>
      if trimJS newContent = "" ∧ blocks.length > 1 ∧ forcedType = none then
        ⟨blocks.eraseIdx currentBlockIndex, none⟩
      else
        let effectiveType := effectiveTypeOf forcedType detectFormat newContent currentBlock.type
        let updatedBlocks := blocks.set currentBlockIndex
          { currentBlock with content := newContent, type := effectiveType }
        if effectiveType = "character" ∧ currentBlock.type ≠ "character" ∧ trimJS newContent ≠ "" then
          let dialogueBlock : Block := ⟨newId, "dialogue", ""⟩
          ⟨updatedBlocks.insertIdx (currentBlockIndex + 1) dialogueBlock, some newId⟩
        else ⟨updatedBlocks, none⟩

/-- The sequence of `newContent` / `newBlockId` updates inside
`handleFormatChange`, in the source's order: the scene-heading /
parenthetical chain, then the character uppercase, then the transition
uppercase-and-`" TO:"` step.  Returns `(newContent, newBlockId)`. -/
def formatTransform (currentBlock : Block) (type freshId : String) : String × String :=
  let c0 := currentBlock.content
  let step1 : String × String :=
    if type = "scene-heading" ∧ currentBlock.type ≠ "scene-heading" then
      (if trimJS c0 = "" then "" else toUpperJS c0, freshId)
    else if type = "scene-heading" ∧ currentBlock.type = "scene-heading" then
      (toUpperJS c0, currentBlock.id)
    else if type = "parenthetical" then
      let t := trimJS c0
      if t = "" ∨ t = "()" then ("()", currentBlock.id)
      else if ¬ startsWithJS t "(" ∨ ¬ endsWithJS t ")" then
        ("(" ++ stripParens t ++ ")", currentBlock.id)
      else (c0, currentBlock.id)
    else if currentBlock.type = "parenthetical" ∧ type ≠ "parenthetical" then
      (trimJS (stripParens c0), currentBlock.id)
    else (c0, currentBlock.id)
  let c1 := step1.1
  let newBlockId := step1.2
  let c2 := if type = "character" ∧ currentBlock.type ≠ "character" then toUpperJS c1 else c1
  let c3 :=
    if type = "transition" ∧ currentBlock.type ≠ "transition" then
      if trimJS c2 = "" then ""
      else
        let u := toUpperJS c2
        if ¬ endsWithJS u "TO:" ∧
            ¬ (startsWithJS u "FADE IN" ∨ startsWithJS u "FADE OUT" ∨ startsWithJS u "DISSOLVE") then
          u ++ " TO:"
        else u
    else if type = "transition" ∧ currentBlock.type = "transition" then toUpperJS c2
    else c2
  (c3, newBlockId)

/-- `handleFormatChange` from `useBlockFormatting`
(src/src/hooks/useBlockFormatting.ts): retypes the active block, applying
the type-specific content transforms in the source's order.  `freshId` is
the uuid minted when switching into scene-heading from another type. -/
def handleFormatChange (blocks : List Block) (activeBlock : Option String)
    (type : String) (freshId : String) : List Block :=
  match activeBlock with
  | none => blocks
  | some ab =>
    match blocks.find? (fun b => b.id = ab) with
    | none => blocks
    | some currentBlock =>
      blocks.map (fun b =>
        if b.id = ab then
          ⟨(formatTransform currentBlock type freshId).2, type,
            (formatTransform currentBlock type freshId).1⟩
        else b)

/-- The slice of the editor state that the history operations touch
(`useEditorState`, src/src/hooks/useEditorState.ts): the live block store,
the undo stack and the redo stack.  Stacks grow at the list's end, matching
the source's array spreads. -/
structure EditorState where
  blocks : List Block
  undoStack : List (List Block)
  redoStack : List (List Block)
deriving Repr, DecidableEq

/-- `addToHistory`: push the live store onto the undo stack and clear the
redo stack (the snapshot argument of the source callback is ignored in
favour of `prev.blocks`, exactly as the source does). -/
def addToHistory (st : EditorState) : EditorState :=
  { st with undoStack := st.undoStack ++ [st.blocks], redoStack := [] }

/-- `handleUndo`: restore the most recent snapshot, pushing the live store
onto the redo stack. -/
def handleUndo (st : EditorState) : EditorState :=
  if st.undoStack = [] then st
  else
    { blocks := st.undoStack.getLastD []
      undoStack := st.undoStack.dropLast
      redoStack := st.redoStack ++ [st.blocks] }

/-- `handleRedo`: the symmetric inverse of `handleUndo`. -/
def handleRedo (st : EditorState) : EditorState :=
  if st.redoStack = [] then st
  else
    { blocks := st.redoStack.getLastD []
      undoStack := st.undoStack ++ [st.blocks]
      redoStack := st.redoStack.dropLast }

/-- A comment anchor as the highlight merge engine consumes it: the comment
id and its `startOffset`/`endOffset` character range (both defined — the
source skips comments with undefined offsets before merging). -/
structure CommentAnchor where
  id : String
  startOffset : Nat
  endOffset : Nat
deriving Repr, DecidableEq

/-- A merged highlight range (`highlightRanges` entry in
`applyAllCommentHighlights`, src/unnamed/part_000): bounds plus the ids of
the comments merged into it.  `stop` stands for the source's `end` field
(`end` is reserved in Lean). -/
structure MergedRange where
  start : Nat
  stop : Nat
  commentIds : List String
deriving Repr, DecidableEq

/-- One iteration of the source's merge loop: scan the existing ranges in
order; merge the comment into the FIRST overlapping one
(`comment.startOffset < existing.end && comment.endOffset > existing.start`),
widening its bounds and appending the id, and stop (`break`); if none
overlaps, append a fresh range at the end (`push`). -/
def addCommentRange (ranges : List MergedRange) (c : CommentAnchor) : List MergedRange :=
  match ranges with
  | [] => [⟨c.startOffset, c.endOffset, [c.id]⟩]
  | r :: rest =>
    if c.startOffset < r.stop ∧ c.endOffset > r.start then
      ⟨min r.start c.startOffset, max r.stop c.endOffset, r.commentIds ++ [c.id]⟩ :: rest
    else r :: addCommentRange rest c

/-- The highlight merge engine (`mergeRanges` of the spec's contract): the
range-construction pass of `applyAllCommentHighlights`
(src/unnamed/part_000), before the descending-`start` sort handed to the
renderer. -/
def mergeRanges (comments : List CommentAnchor) : List MergedRange :=
  comments.foldl addCommentRange []

/-- A point is covered by one of the merged ranges (ranges are half-open,
as character offsets within the block's text). -/
def coveredByRanges (ranges : List MergedRange) (x : Nat) : Prop :=
  ∃ r ∈ ranges, r.start ≤ x ∧ x < r.stop

/-- A point is covered by one of the input comment anchors. -/
def coveredByComments (comments : List CommentAnchor) (x : Nat) : Prop :=
  ∃ c ∈ comments, c.startOffset ≤ x ∧ x < c.endOffset

/-- Two merged ranges overlap, in the source's sense. -/
def rangesOverlap (a b : MergedRange) : Prop :=
  a.start < b.stop ∧ a.stop > b.start

/-- A comment card as the layout engine consumes it: id, the anchor block's
vertical offset (`blockPositions[comment.blockId]`), and the card height
(measured, else estimated).  All anchors are defined — a comment whose
block position is undefined receives a `null` position and takes no part in
the packing. -/
structure CommentCard where
  id : String
  anchor : Int
  height : Int
deriving Repr, DecidableEq

/-- The packing loop of `calculateCommentPositions` (src/unnamed/part_001):
walk the sorted cards, keeping `accumulatedHeight`; use the aligned
position `anchor + verticalOffset` as-is unless it lies above the
accumulated bottom, in which case push it down to `accumulatedHeight +
cardMargin`; then advance `accumulatedHeight` to `position + height +
cardMargin`. -/
def packCards (cardMargin verticalOffset : Int) (accumulatedHeight : Int) :
    List CommentCard → List (CommentCard × Int)
  | [] => []
  | c :: rest =>
    let aligned := c.anchor + verticalOffset
    let position := if aligned < accumulatedHeight then accumulatedHeight + cardMargin else aligned
    (c, position) :: packCards cardMargin verticalOffset (position + c.height + cardMargin) rest

/-- `calculateCommentPositions` (src/unnamed/part_001): sort the visible
comments ascending by their anchor block position (`Array.prototype.sort`
is stable; insertion sort with `≤` is the stable sort), then run the
packing loop from `accumulatedHeight = 0`.  The source's `cardMargin` is 12
or 16 (compact vs normal) and `verticalOffset` is `-20`; both are kept as
parameters. -/
def calculateCommentPositions (cardMargin verticalOffset : Int)
    (comments : List CommentCard) : List (CommentCard × Int) :=
  packCards cardMargin verticalOffset 0
    (comments.insertionSort (fun a b => a.anchor ≤ b.anchor))

/-- Modelled from the spec: the layout algorithm exactly as §4.4 words it —
"sort comments by anchor offset ascending; maintain `accumulatedBottom`
initialized to 0; for each comment in order, compute the aligned position
(`anchorOffset + verticalOffset`); if it is below `accumulatedBottom` use
it as-is, otherwise push it down to `accumulatedBottom + margin`; set
`accumulatedBottom = position + height + margin` and continue".  Written as
a left fold carrying `accumulatedBottom`, to be compared with the source's
`calculateCommentPositions`. -/
def specLayout (margin verticalOffset : Int) (comments : List CommentCard) :
    List (CommentCard × Int) :=
  ((comments.insertionSort (fun a b => a.anchor ≤ b.anchor)).foldl
    (fun (st : Int × List (CommentCard × Int)) c =>
      let aligned := c.anchor + verticalOffset
      let position := if aligned < st.1 then st.1 + margin else aligned
      (position + c.height + margin, st.2 ++ [(c, position)]))
    (0, [])).2

/-- Two positioned cards overlap when their pixel spans
`[position, position + height)` intersect. -/
def cardsOverlap (a b : CommentCard × Int) : Prop :=
  a.2 < b.2 + b.1.height ∧ b.2 < a.2 + a.1.height

/-- `block.type === 'scene-heading'`. -/
def isSceneHeading (b : Block) : Bool :=
  b.type = "scene-heading"

/-- The ids of the scene-heading blocks, in store order. -/
def headingIds (blocks : List Block) : List String :=
  (blocks.filter isSceneHeading).map (fun b => b.id)

/-- `Map.prototype.set`: replace the value under an existing key, else
append the pair. -/
def mapSet (m : List (String × List Block)) (k : String) (v : List Block) :
    List (String × List Block) :=
  match m with
  | [] => [(k, v)]
  | (k', v') :: rest => if k' = k then (k, v) :: rest else (k', v') :: mapSet rest k v

/-- `Map.prototype.get` as an `Option`. -/
def mapGet (m : List (String × List Block)) (k : String) : Option (List Block) :=
  (m.find? (fun p => p.1 = k)).map (fun p => p.2)

/-- Close the pending scene run into the map (`sceneBlocksMap.set(currentSceneId,
currentSceneBlocks)` in `handleScenesReordered`). -/
def closePending (m : List (String × List Block)) :
    Option (String × List Block) → List (String × List Block)
  | none => m
  | some (sid, run) => mapSet m sid run

/-- The grouping pass of `handleScenesReordered` (src/unnamed/part_000):
walk the store; a scene-heading block closes the pending run and opens a
new one keyed by the heading's id; any other block joins the pending run,
or is skipped when no scene is open yet (blocks before the first heading). -/
def buildSceneBlocksMap (m : List (String × List Block))
    (pending : Option (String × List Block)) :
    List Block → List (String × List Block)
  | [] => closePending m pending
  | b :: rest =>
    if isSceneHeading b then
      buildSceneBlocksMap (closePending m pending) (some (b.id, [b])) rest
    else
      match pending with
      | none => buildSceneBlocksMap m none rest
      | some (sid, run) => buildSceneBlocksMap m (some (sid, run ++ [b])) rest

/-- `handleScenesReordered` (src/unnamed/part_000): group the flat store
into per-scene runs keyed by heading id, then emit, for each scene id of
the reordered list in order, that scene's blocks (skipping ids with no
run).  `reorderedScenes` carries only the scene ids — the only field of the
`Scene` records the source consults. -/
def handleScenesReordered (blocks : List Block) (reorderedScenes : List String) :
    List Block :=
  reorderedScenes.flatMap
    (fun sid => (mapGet (buildSceneBlocksMap [] none blocks) sid).getD [])

/-- A listed scene's contiguous block run, as the claim words it: the
scene-heading block with the given id through the block before the next
scene heading; empty when the store has no such heading. -/
def sceneRun (blocks : List Block) (sid : String) : List Block :=
  match blocks.dropWhile (fun b => ¬ (isSceneHeading b ∧ b.id = sid)) with
  | [] => []
  | h :: t => h :: t.takeWhile (fun b => ¬ isSceneHeading b)

/-! ## Helper lemmas -/

theorem findIdx?_some_lt {α : Type} {p : α → Bool} {l : List α} {i : Nat}
    (h : l.findIdx? p = some i) : i < l.length :=
  (List.findIdx?_eq_some_iff_findIdx_eq.mp h).1

/-- With pairwise-distinct ids, filtering out a block id removes exactly the
block `findIdx?` locates. -/
theorem filter_ne_eq_eraseIdx :
    ∀ (blocks : List Block) (blockId : String) (i : Nat),
      blocks.findIdx? (fun b => b.id = blockId) = some i →
      (blocks.map Block.id).Nodup →
      blocks.filter (fun b => b.id ≠ blockId) = blocks.eraseIdx i := by
  intro blocks
  induction blocks with
  | nil => intro blockId i h; simp at h
  | cons a t ih =>
    intro blockId i h hnd
    obtain ⟨hlt, hfi⟩ := List.findIdx?_eq_some_iff_findIdx_eq.mp h
    rw [List.findIdx_cons] at hfi
    simp only [List.map_cons, List.nodup_cons] at hnd
    by_cases hp : a.id = blockId
    · rw [show (decide (a.id = blockId) : Bool) = true by simp [hp]] at hfi
      simp only [cond_true] at hfi
      subst hfi
      rw [List.eraseIdx_cons_zero]
      have hall : ∀ b ∈ t, b.id ≠ blockId := by
        intro b hb hbid
        apply hnd.1
        have : b.id ∈ List.map Block.id t := List.mem_map_of_mem Block.id hb
        rwa [hbid, ← hp] at this
      rw [List.filter_cons]
      rw [show (decide (a.id ≠ blockId) : Bool) = false by simp [hp]]
      apply List.filter_eq_self.mpr
      intro b hb
      simpa using hall b hb
    · rw [show (decide (a.id = blockId) : Bool) = false by simp [hp]] at hfi
      simp only [cond_false] at hfi
      subst hfi
      rw [List.eraseIdx_cons_succ]
      rw [List.filter_cons]
      rw [show (decide (a.id ≠ blockId) : Bool) = true by simp [hp]]
      have hlt' : t.findIdx (fun b => b.id = blockId) < t.length := by
        simp only [List.length_cons] at hlt
        omega
      have ht : t.findIdx? (fun b => b.id = blockId) = some (t.findIdx (fun b => b.id = blockId)) :=
        List.findIdx?_eq_some_iff_findIdx_eq.mpr ⟨hlt', rfl⟩
      rw [ih blockId _ ht hnd.2]
      simp

/-! ## C7: history push / undo / redo -/

/-- C7: pushing a history snapshot clears the redo stack and records the
live store; undo with a non-empty undo stack installs the most recent
snapshot, pushes the prior live store onto the redo stack and pops the undo
stack; redo is the symmetric inverse; hence undo followed by redo restores
the pre-undo editor state. -/
theorem history_undo_redo_claim7 (st : EditorState) (us rs : List (List Block))
    (top b : List Block) :
    ((addToHistory st).redoStack = [] ∧
      (addToHistory st).undoStack = st.undoStack ++ [st.blocks] ∧
      (addToHistory st).blocks = st.blocks) ∧
    (st.undoStack = us ++ [top] →
      handleUndo st = ⟨top, us, st.redoStack ++ [st.blocks]⟩) ∧
    (st.redoStack = rs ++ [b] →
      handleRedo st = ⟨b, st.undoStack ++ [st.blocks], rs⟩) ∧
    (st.undoStack ≠ [] → handleRedo (handleUndo st) = st) := by
  refine ⟨⟨rfl, rfl, rfl⟩, ?_, ?_, ?_⟩
  · intro h
    rw [handleUndo, if_neg (by simp [h])]
    simp [h]
  · intro h
    rw [handleRedo, if_neg (by simp [h])]
    simp [h]
  · intro h
    obtain ⟨us', top', hus⟩ := (List.eq_nil_or_concat st.undoStack).resolve_left h
    rw [List.concat_eq_append] at hus
    rw [handleUndo, if_neg (by simp [hus])]
    simp only [hus]
    rw [handleRedo]
    simp only [List.getLastD_concat, List.dropLast_concat]
    rw [if_neg (by simp)]
    rw [← hus]

/-! ## C4: backspace on an empty block never empties the store -/

/-- C4: `onBackspace` is a no-op when the store has a single block, when
the target id is absent, or when the target is the first block; otherwise
it removes exactly the located block; and neither backspace nor the
content-change deletion path ever leaves the store empty. -/
theorem backspace_never_empties_claim4 (blocks : List Block) (blockId : String)
    (hnd : (blocks.map Block.id).Nodup) (hne : blocks ≠ []) :
    (blocks.length = 1 → handleBackspaceInEmptyBlock blocks blockId = (blocks, false)) ∧
    (blocks.findIdx? (fun b => b.id = blockId) = none →
      handleBackspaceInEmptyBlock blocks blockId = (blocks, false)) ∧
    (blocks.findIdx? (fun b => b.id = blockId) = some 0 →
      handleBackspaceInEmptyBlock blocks blockId = (blocks, false)) ∧
    (∀ i, blocks.findIdx? (fun b => b.id = blockId) = some i → 0 < i → 1 < blocks.length →
      handleBackspaceInEmptyBlock blocks blockId = (blocks.eraseIdx i, true) ∧
        (blocks.eraseIdx i).length + 1 = blocks.length) ∧
    (handleBackspaceInEmptyBlock blocks blockId).1 ≠ [] ∧
    (∀ newContent forcedType detectFormat newId,
      (handleContentChange blocks blockId newContent forcedType detectFormat newId).blocks ≠ []) := by
  refine ⟨?_, ?_, ?_, ?_, ?_, ?_⟩
  · intro h
    rw [handleBackspaceInEmptyBlock, if_pos (by omega)]
  · intro h
    rw [handleBackspaceInEmptyBlock]
    by_cases hl : blocks.length ≤ 1
    · rw [if_pos hl]
    · rw [if_neg hl, h]
  · intro h
    rw [handleBackspaceInEmptyBlock]
    by_cases hl : blocks.length ≤ 1
    · rw [if_pos hl]
    · rw [if_neg hl, h]
      simp
  · intro i h hi hl
    have hl' : ¬ blocks.length ≤ 1 := by omega
    have hi' : i ≠ 0 := by omega
    constructor
    · simp only [handleBackspaceInEmptyBlock, if_neg hl', h, hi', if_false, ite_false]
      rw [filter_ne_eq_eraseIdx blocks blockId i h hnd]
    · rw [List.length_eraseIdx, if_pos (findIdx?_some_lt h)]
      omega
  · have hpos : 0 < blocks.length := List.length_pos.mpr hne
    have : 0 < (handleBackspaceInEmptyBlock blocks blockId).1.length := by
      rw [handleBackspaceInEmptyBlock]
      by_cases hl : blocks.length ≤ 1
      · rw [if_pos hl]; exact hpos
      · rw [if_neg hl]
        cases hfi : blocks.findIdx? (fun b => b.id = blockId) with
        | none => exact hpos
        | some i =>
          by_cases hz : i = 0
          · simp [hz]; exact hpos
          · simp only [hz, ite_false, if_false]
            show 0 < (blocks.filter (fun b => b.id ≠ blockId)).length
            rw [filter_ne_eq_eraseIdx blocks blockId i hfi hnd]
            rw [List.length_eraseIdx, if_pos (findIdx?_some_lt hfi)]
            omega
    exact List.length_pos.mp this
  · intro newContent forcedType detectFormat newId
    have hpos : 0 < blocks.length := List.length_pos.mpr hne
    have hres : 0 <
        (handleContentChange blocks blockId newContent forcedType detectFormat newId).blocks.length := by
      rw [handleContentChange]
      cases hfi : blocks.findIdx? (fun b => b.id = blockId) with
      | none => exact hpos
      | some i =>
        have hilt : i < blocks.length := findIdx?_some_lt hfi
        have hget : blocks[i]? = some blocks[i] := List.getElem?_eq_getElem hilt
        simp only [hget]
        by_cases hdel : trimJS newContent = "" ∧ blocks.length > 1 ∧ forcedType = none
        · rw [if_pos hdel]
          show 0 < (blocks.eraseIdx i).length
          rw [List.length_eraseIdx, if_pos hilt]
          omega
        · rw [if_neg hdel]
          by_cases hins : effectiveTypeOf forcedType detectFormat newContent blocks[i].type
                = "character" ∧ blocks[i].type ≠ "character" ∧ trimJS newContent ≠ ""
          · rw [if_pos hins]
            show 0 < (List.insertIdx (i + 1) (⟨newId, "dialogue", ""⟩ : Block)
              (blocks.set i ⟨blocks[i].id,
                effectiveTypeOf forcedType detectFormat newContent blocks[i].type,
                newContent⟩)).length
            rw [List.length_insertIdx (i + 1) _ (by rw [List.length_set]; omega)]
            omega
          · rw [if_neg hins]
            show 0 < (blocks.set i ⟨blocks[i].id,
                effectiveTypeOf forcedType detectFormat newContent blocks[i].type,
                newContent⟩).length
            rw [List.length_set]
            omega
    exact List.length_pos.mp hres

/-- Witness for C4 at a concrete two-block store. -/
theorem backspace_never_empties_claim4_witness :
    ((([⟨"b1", "action", "x"⟩, ⟨"b2", "action", ""⟩] : List Block).map Block.id).Nodup ∧
      ([⟨"b1", "action", "x"⟩, ⟨"b2", "action", ""⟩] : List Block) ≠ []) ∧
    (handleBackspaceInEmptyBlock [⟨"b1", "action", "x"⟩, ⟨"b2", "action", ""⟩] "b2").1 ≠ [] := by
  have h := backspace_never_empties_claim4
    [⟨"b1", "action", "x"⟩, ⟨"b2", "action", ""⟩] "b2" (by decide) (by decide)
  exact ⟨⟨by decide, by decide⟩, h.2.2.2.2.1⟩

/-! ## C9: operations on an absent block id are silent no-ops -/

/-- C9: when the target block id is absent from the store, each of the four
edit operations returns the block store unchanged (the embedded operations
are total Lean functions, so no exception can arise). -/
theorem invalid_id_noop_claim9 (blocks : List Block) (id : String)
    (h : ∀ b ∈ blocks, b.id ≠ id) :
    (∀ content caretPos isDoubleEnter newId getNextBlockType,
      (handleEnterKey blocks id content caretPos isDoubleEnter newId
        getNextBlockType).blocks = blocks) ∧
    handleBackspaceInEmptyBlock blocks id = (blocks, false) ∧
    (∀ newContent forcedType detectFormat newId,
      handleContentChange blocks id newContent forcedType detectFormat newId =
        ⟨blocks, none⟩) ∧
    (∀ type freshId, handleFormatChange blocks (some id) type freshId = blocks) := by
  have hfind : blocks.find? (fun b => b.id = id) = none := by
    apply List.find?_eq_none.mpr
    intro b hb
    simpa using h b hb
  have hfix : blocks.findIdx? (fun b => b.id = id) = none := by
    apply List.findIdx?_eq_none_iff.mpr
    intro b hb
    simpa using h b hb
  refine ⟨?_, ?_, ?_, ?_⟩
  · intro content caretPos isDoubleEnter newId getNextBlockType
    simp only [handleEnterKey, hfind]
  · rw [handleBackspaceInEmptyBlock]
    by_cases hl : blocks.length ≤ 1
    · rw [if_pos hl]
    · rw [if_neg hl, hfix]
  · intro newContent forcedType detectFormat newId
    simp only [handleContentChange, hfix]
  · intro type freshId
    simp only [handleFormatChange, hfind]

/-- Witness for C9 at a concrete store and an id it does not contain. -/
theorem invalid_id_noop_claim9_witness :
    (∀ b ∈ ([⟨"b1", "action", "x"⟩] : List Block), b.id ≠ "ghost") ∧
    handleBackspaceInEmptyBlock [⟨"b1", "action", "x"⟩] "ghost" =
      ([⟨"b1", "action", "x"⟩], false) := by
  have hid : ∀ b ∈ ([⟨"b1", "action", "x"⟩] : List Block), b.id ≠ "ghost" := by decide
  exact ⟨hid, (invalid_id_noop_claim9 [⟨"b1", "action", "x"⟩] "ghost" hid).2.1⟩

/-! ## C2: content change reclassifying into character -/

/-- C2 counterexample: reclassifying an action block to character with
non-empty text inserts the empty dialogue block immediately after — and the
focus target IS the inserted dialogue block (`blockToFocusId =
dialogueBlockId` in the source), contradicting the claim that focus does
not move to it. -/
theorem content_change_character_focus_claim2_cex :
    (handleContentChange [⟨"b1", "action", "X"⟩] "b1" "ALEX" (some "character")
        (fun _ => none) "n1").focus = some "n1" ∧
    handleContentChange [⟨"b1", "action", "X"⟩] "b1" "ALEX" (some "character")
        (fun _ => none) "n1" =
      ⟨[⟨"b1", "character", "ALEX"⟩, ⟨"n1", "dialogue", ""⟩], some "n1"⟩ := by
  constructor
  · decide
  · decide

/-- C2 as amended: reclassifying a block from a non-character type to
character with non-trim-empty text inserts an empty dialogue block
immediately after it, and the focus target is that inserted dialogue
block. -/
theorem content_change_character_inserts_dialogue_claim2 (blocks : List Block)
    (id newContent : String) (forcedType : Option String)
    (detectFormat : String → Option String) (newId : String) (i : Nat)
    (hfi : blocks.findIdx? (fun b => b.id = id) = some i)
    (hchar : effectiveTypeOf forcedType detectFormat newContent
      (blocks.get ⟨i, findIdx?_some_lt hfi⟩).type = "character")
    (hnotchar : (blocks.get ⟨i, findIdx?_some_lt hfi⟩).type ≠ "character")
    (hne : trimJS newContent ≠ "") :
    handleContentChange blocks id newContent forcedType detectFormat newId =
      ⟨(blocks.set i ⟨(blocks.get ⟨i, findIdx?_some_lt hfi⟩).id,
          effectiveTypeOf forcedType detectFormat newContent
            (blocks.get ⟨i, findIdx?_some_lt hfi⟩).type,
          newContent⟩).insertIdx (i + 1) ⟨newId, "dialogue", ""⟩,
        some newId⟩ := by
  have hilt : i < blocks.length := findIdx?_some_lt hfi
  have hget : blocks[i]? = some blocks[i] := List.getElem?_eq_getElem hilt
  rw [handleContentChange, hfi]
  simp only [hget]
  rw [if_neg (by
    intro hcon
    exact hne hcon.1)]
  rw [if_pos (by
    simp only [List.get_eq_getElem] at hchar hnotchar
    exact ⟨hchar, hnotchar, hne⟩)]
  simp [List.get_eq_getElem]

/-- Witness for C2's amended theorem at the counterexample's input. -/
theorem content_change_character_inserts_dialogue_claim2_witness :
    handleContentChange [⟨"b1", "action", "X"⟩] "b1" "ALEX" (some "character")
        (fun _ => none) "n1" =
      ⟨[⟨"b1", "character", "ALEX"⟩, ⟨"n1", "dialogue", ""⟩], some "n1"⟩ := by
  have h := content_change_character_inserts_dialogue_claim2
    [⟨"b1", "action", "X"⟩] "b1" "ALEX" (some "character") (fun _ => none) "n1" 0
    (by decide) (by decide) (by decide) (by decide)
  exact h

/-! ## C5: Enter in a non-empty character block -/

/-- C5 counterexample: with content `"alex "` and the caret at its end, the
code stores the TRIMMED uppercase `"ALEX"`, not the plain uppercase
`"ALEX "` of the text before the caret (and the new block holds the trimmed
after-text), so the claim's untrimmed reading fails. -/
theorem enter_character_split_claim5_cex :
    (handleEnterKey [⟨"b1", "character", "alex "⟩] "b1" "alex " 5 false "b2"
        (fun t _ _ => t)).blocks =
      [⟨"b1", "character", "ALEX"⟩, ⟨"b2", "dialogue", ""⟩] ∧
    (handleEnterKey [⟨"b1", "character", "alex "⟩] "b1" "alex " 5 false "b2"
        (fun t _ _ => t)).blocks ≠
      [⟨"b1", "character", "ALEX "⟩, ⟨"b2", "dialogue", ""⟩] := by
  constructor
  · decide
  · decide

/-- C5 as amended: Enter in a character block that is not blank around the
caret keeps the block as a character block whose content is the trimmed
uppercase of the text before the caret, and inserts one new block
immediately after holding the trimmed text after the caret; the new block's
type is action exactly when this Enter is a double-Enter (within 500 ms of
the session's previous Enter), else dialogue. -/
theorem enter_character_split_claim5 (blocks : List Block)
    (blockId content : String) (caretPos : Nat) (isDoubleEnter : Bool)
    (newId : String) (getNextBlockType : String → String → Bool → String)
    (i : Nat) (cur : Block)
    (hfind : blocks.find? (fun b => b.id = blockId) = some cur)
    (hidx : blocks.findIdx? (fun b => b.id = blockId) = some i)
    (htype : cur.type = "character")
    (hne : ¬ (trimJS (takeJS content caretPos) = "" ∧
      trimJS (dropJS content caretPos) = "")) :
    (handleEnterKey blocks blockId content caretPos isDoubleEnter newId
        getNextBlockType).blocks =
      (blocks.set i
        { cur with content := toUpperJS (trimJS (takeJS content caretPos)) }).insertIdx
        (i + 1)
        ⟨newId, if isDoubleEnter then "action" else "dialogue",
          trimJS (dropJS content caretPos)⟩ ∧
    (handleEnterKey blocks blockId content caretPos isDoubleEnter newId
        getNextBlockType).blocks.length = blocks.length + 1 := by
  have hilt : i < blocks.length := findIdx?_some_lt hidx
  have hmain :
      (handleEnterKey blocks blockId content caretPos isDoubleEnter newId
          getNextBlockType).blocks =
        (blocks.set i
          { cur with content := toUpperJS (trimJS (takeJS content caretPos)) }).insertIdx
          (i + 1)
          ⟨newId, if isDoubleEnter then "action" else "dialogue",
            trimJS (dropJS content caretPos)⟩ := by
    rw [handleEnterKey, hfind]
    simp only [htype, hidx]
    rw [if_neg (by decide)]
    rw [if_pos trivial]
    rw [if_neg hne]
    cases isDoubleEnter with
    | true => simp
    | false => simp
  refine ⟨hmain, ?_⟩
  rw [hmain]
  rw [List.length_insertIdx (i + 1) _ (by rw [List.length_set]; omega)]
  rw [List.length_set]

/-- Witness for C5 at Scenario B's input (`{character, "ALEX"}`, caret at
end, single Enter). -/
theorem enter_character_split_claim5_witness :
    (handleEnterKey [⟨"b1", "character", "ALEX"⟩] "b1" "ALEX" 4 false "b2"
        (fun t _ _ => t)).blocks =
      (([⟨"b1", "character", "ALEX"⟩] : List Block).set 0
        ⟨"b1", "character", toUpperJS (trimJS (takeJS "ALEX" 4))⟩).insertIdx 1
        ⟨"b2", if false then "action" else "dialogue", trimJS (dropJS "ALEX" 4)⟩ ∧
    (handleEnterKey [⟨"b1", "character", "ALEX"⟩] "b1" "ALEX" 4 false "b2"
        (fun t _ _ => t)).blocks.length = 1 + 1 := by
  have h := enter_character_split_claim5 [⟨"b1", "character", "ALEX"⟩] "b1" "ALEX" 4
    false "b2" (fun t _ _ => t) 0 ⟨"b1", "character", "ALEX"⟩
    (by decide) (by decide) (by decide) (by decide)
  exact h

/-! ## C6: Enter in an empty character block -/

/-- C6 counterexample: Enter on an empty character block REPLACES the block
with a freshly minted block (a new id) of the toggled type, rather than
retyping the current block itself: with next block dialogue, the result's
first block carries the new id `"n1"`, not the original `"b1"`. -/
theorem enter_empty_character_toggle_claim6_cex :
    (handleEnterKey [⟨"b1", "character", ""⟩, ⟨"b2", "dialogue", "hi"⟩] "b1" "" 0
        false "n1" (fun t _ _ => t)).blocks =
      [⟨"n1", "action", ""⟩, ⟨"b2", "dialogue", "hi"⟩] ∧
    (handleEnterKey [⟨"b1", "character", ""⟩, ⟨"b2", "dialogue", "hi"⟩] "b1" "" 0
        false "n1" (fun t _ _ => t)).blocks ≠
      [⟨"b1", "action", ""⟩, ⟨"b2", "dialogue", "hi"⟩] := by
  constructor
  · decide
  · decide

/-- C6 as amended: Enter in a character block blank on both sides of the
caret performs no split — the store's length is unchanged — and replaces
the current block, at its position, by a fresh empty block (carrying the
newly minted id) whose type is action when the immediately following block
is dialogue and dialogue otherwise. -/
theorem enter_empty_character_toggle_claim6 (blocks : List Block)
    (blockId content : String) (caretPos : Nat) (isDoubleEnter : Bool)
    (newId : String) (getNextBlockType : String → String → Bool → String)
    (i : Nat) (cur : Block)
    (hfind : blocks.find? (fun b => b.id = blockId) = some cur)
    (hidx : blocks.findIdx? (fun b => b.id = blockId) = some i)
    (htype : cur.type = "character")
    (hempty : trimJS (takeJS content caretPos) = "" ∧
      trimJS (dropJS content caretPos) = "") :
    (handleEnterKey blocks blockId content caretPos isDoubleEnter newId
        getNextBlockType).blocks =
      blocks.set i
        ⟨newId,
          match blocks[i + 1]? with
          | some nextBlock => if nextBlock.type = "dialogue" then "action" else "dialogue"
          | none => "dialogue", ""⟩ ∧
    (handleEnterKey blocks blockId content caretPos isDoubleEnter newId
        getNextBlockType).blocks.length = blocks.length := by
  have hmain :
      (handleEnterKey blocks blockId content caretPos isDoubleEnter newId
          getNextBlockType).blocks =
        blocks.set i
          ⟨newId,
            match blocks[i + 1]? with
            | some nextBlock => if nextBlock.type = "dialogue" then "action" else "dialogue"
            | none => "dialogue", ""⟩ := by
    rw [handleEnterKey, hfind]
    simp only [htype, hidx]
    rw [if_neg (by decide)]
    rw [if_pos trivial]
    rw [if_pos hempty]
  refine ⟨hmain, ?_⟩
  rw [hmain, List.length_set]

/-- Witness for C6 at the counterexample's input. -/
theorem enter_empty_character_toggle_claim6_witness :
    (handleEnterKey [⟨"b1", "character", ""⟩, ⟨"b2", "dialogue", "hi"⟩] "b1" "" 0
        false "n1" (fun t _ _ => t)).blocks =
      ([⟨"b1", "character", ""⟩, ⟨"b2", "dialogue", "hi"⟩] : List Block).set 0
        ⟨"n1",
          match ([⟨"b1", "character", ""⟩, ⟨"b2", "dialogue", "hi"⟩] : List Block)[0 + 1]? with
          | some nextBlock => if nextBlock.type = "dialogue" then "action" else "dialogue"
          | none => "dialogue", ""⟩ ∧
    (handleEnterKey [⟨"b1", "character", ""⟩, ⟨"b2", "dialogue", "hi"⟩] "b1" "" 0
        false "n1" (fun t _ _ => t)).blocks.length = 2 := by
  have h := enter_empty_character_toggle_claim6
    [⟨"b1", "character", ""⟩, ⟨"b2", "dialogue", "hi"⟩] "b1" "" 0 false "n1"
    (fun t _ _ => t) 0 ⟨"b1", "character", ""⟩
    (by decide) (by decide) (by decide) (by decide)
  exact h

/-! ## C3: format-change content transforms -/

/-- C3 counterexample: changing an action block to shot leaves the content
untouched — `"close up"` is NOT uppercased — because the source's transform
chain has no shot branch. -/
theorem format_change_shot_claim3_cex :
    handleFormatChange [⟨"b1", "action", "close up"⟩] (some "b1") "shot" "f1" =
      [⟨"b1", "shot", "close up"⟩] ∧
    handleFormatChange [⟨"b1", "action", "close up"⟩] (some "b1") "shot" "f1" ≠
      [⟨"b1", "shot", "CLOSE UP"⟩] := by
  constructor
  · decide
  · decide

/-- The transition-cue test of `handleFormatChange`'s transition branch, as
one boolean: the uppercased text already ends with `"TO:"` or starts with
`"FADE IN"`, `"FADE OUT"` or `"DISSOLVE"`. -/
def transitionCue (u : String) : Bool :=
  endsWithJS u "TO:" || (startsWithJS u "FADE IN" || startsWithJS u "FADE OUT" ||
    startsWithJS u "DISSOLVE")

theorem formatTransform_shot (cur : Block) (freshId : String)
    (h : cur.type ≠ "parenthetical") :
    formatTransform cur "shot" freshId = (cur.content, cur.id) := by
  simp [formatTransform, h]

theorem formatTransform_character (cur : Block) (freshId : String)
    (h1 : cur.type ≠ "character") (h2 : cur.type ≠ "parenthetical") :
    formatTransform cur "character" freshId = (toUpperJS cur.content, cur.id) := by
  simp [formatTransform, h1, h2]

theorem formatTransform_sceneHeading (cur : Block) (freshId : String)
    (h1 : cur.type ≠ "scene-heading") (h2 : trimJS cur.content ≠ "") :
    formatTransform cur "scene-heading" freshId = (toUpperJS cur.content, freshId) := by
  simp [formatTransform, h1, h2]

theorem formatTransform_transition_append (cur : Block) (freshId : String)
    (h1 : cur.type ≠ "transition") (h2 : cur.type ≠ "parenthetical")
    (h3 : trimJS cur.content ≠ "")
    (h4 : transitionCue (toUpperJS cur.content) = false) :
    formatTransform cur "transition" freshId =
      (toUpperJS cur.content ++ " TO:", cur.id) := by
  simp only [transitionCue, Bool.or_eq_false_iff] at h4
  obtain ⟨ha, ⟨hb, hc⟩, hd⟩ := h4
  simp [formatTransform, h1, h2, h3, ha, hb, hc, hd]

theorem formatTransform_transition_cue (cur : Block) (freshId : String)
    (h1 : cur.type ≠ "transition") (h2 : cur.type ≠ "parenthetical")
    (h3 : trimJS cur.content ≠ "")
    (h4 : transitionCue (toUpperJS cur.content) = true) :
    formatTransform cur "transition" freshId = (toUpperJS cur.content, cur.id) := by
  simp only [transitionCue, Bool.or_eq_true] at h4
  rcases h4 with h4 | (h4 | h4) | h4 <;> simp [formatTransform, h1, h2, h3, h4]

theorem formatTransform_parenthetical_wrap (cur : Block) (freshId : String)
    (h1 : trimJS cur.content ≠ "") (h2 : trimJS cur.content ≠ "()")
    (h3 : (startsWithJS (trimJS cur.content) "(" &&
      endsWithJS (trimJS cur.content) ")") = false) :
    formatTransform cur "parenthetical" freshId =
      ("(" ++ stripParens (trimJS cur.content) ++ ")", cur.id) := by
  simp only [Bool.and_eq_false_iff] at h3
  rcases h3 with h3 | h3 <;> simp [formatTransform, h1, h2, h3]

theorem formatTransform_leaving_parenthetical (cur : Block) (ty freshId : String)
    (h0 : cur.type = "parenthetical") (h1 : ty ≠ "parenthetical")
    (h2 : ty ≠ "scene-heading") (h3 : ty ≠ "character") (h4 : ty ≠ "transition") :
    formatTransform cur ty freshId = (trimJS (stripParens cur.content), cur.id) := by
  simp [formatTransform, h0, h1, h2, h3, h4]

/-- C3 as amended: format change to scene-heading, character or transition
uppercases the content (scene-heading and character when coming from a
different type, and with non-blank content for scene-heading and
transition); format change to SHOT leaves the content unchanged; transition
additionally appends `" TO:"` exactly when the uppercased text neither ends
with `"TO:"` nor starts with `"FADE IN"`, `"FADE OUT"` or `"DISSOLVE"`;
parenthetical wraps bare content in parentheses; and leaving parenthetical
for a type with no transform of its own strips the parentheses. -/
theorem format_change_transforms_claim3 (blocks : List Block)
    (ab freshId : String) (cur : Block)
    (hfind : blocks.find? (fun b => b.id = ab) = some cur) :
    (cur.type ≠ "parenthetical" →
      handleFormatChange blocks (some ab) "shot" freshId =
        blocks.map (fun b => if b.id = ab then ⟨cur.id, "shot", cur.content⟩ else b)) ∧
    (cur.type ≠ "character" → cur.type ≠ "parenthetical" →
      handleFormatChange blocks (some ab) "character" freshId =
        blocks.map (fun b =>
          if b.id = ab then ⟨cur.id, "character", toUpperJS cur.content⟩ else b)) ∧
    (cur.type ≠ "scene-heading" → trimJS cur.content ≠ "" →
      handleFormatChange blocks (some ab) "scene-heading" freshId =
        blocks.map (fun b =>
          if b.id = ab then ⟨freshId, "scene-heading", toUpperJS cur.content⟩ else b)) ∧
    (cur.type ≠ "transition" → cur.type ≠ "parenthetical" → trimJS cur.content ≠ "" →
      transitionCue (toUpperJS cur.content) = false →
      handleFormatChange blocks (some ab) "transition" freshId =
        blocks.map (fun b =>
          if b.id = ab then ⟨cur.id, "transition", toUpperJS cur.content ++ " TO:"⟩ else b)) ∧
    (cur.type ≠ "transition" → cur.type ≠ "parenthetical" → trimJS cur.content ≠ "" →
      transitionCue (toUpperJS cur.content) = true →
      handleFormatChange blocks (some ab) "transition" freshId =
        blocks.map (fun b =>
          if b.id = ab then ⟨cur.id, "transition", toUpperJS cur.content⟩ else b)) ∧
    (trimJS cur.content ≠ "" → trimJS cur.content ≠ "()" →
      (startsWithJS (trimJS cur.content) "(" && endsWithJS (trimJS cur.content) ")") = false →
      handleFormatChange blocks (some ab) "parenthetical" freshId =
        blocks.map (fun b =>
          if b.id = ab then
            ⟨cur.id, "parenthetical", "(" ++ stripParens (trimJS cur.content) ++ ")"⟩
          else b)) ∧
    (∀ ty, cur.type = "parenthetical" → ty ≠ "parenthetical" → ty ≠ "scene-heading" →
      ty ≠ "character" → ty ≠ "transition" →
      handleFormatChange blocks (some ab) ty freshId =
        blocks.map (fun b =>
          if b.id = ab then ⟨cur.id, ty, trimJS (stripParens cur.content)⟩ else b)) := by
  refine ⟨?_, ?_, ?_, ?_, ?_, ?_, ?_⟩
  · intro h
    simp only [handleFormatChange, hfind, formatTransform_shot cur freshId h]
  · intro h1 h2
    simp only [handleFormatChange, hfind, formatTransform_character cur freshId h1 h2]
  · intro h1 h2
    simp only [handleFormatChange, hfind, formatTransform_sceneHeading cur freshId h1 h2]
  · intro h1 h2 h3 h4
    simp only [handleFormatChange, hfind,
      formatTransform_transition_append cur freshId h1 h2 h3 h4]
  · intro h1 h2 h3 h4
    simp only [handleFormatChange, hfind,
      formatTransform_transition_cue cur freshId h1 h2 h3 h4]
  · intro h1 h2 h3
    simp only [handleFormatChange, hfind,
      formatTransform_parenthetical_wrap cur freshId h1 h2 h3]
  · intro ty h0 h1 h2 h3 h4
    simp only [handleFormatChange, hfind,
      formatTransform_leaving_parenthetical cur ty freshId h0 h1 h2 h3 h4]

/-- Witness for C3 at a concrete action block (shot leaves it unchanged). -/
theorem format_change_transforms_claim3_witness :
    handleFormatChange [⟨"b1", "action", "close up"⟩] (some "b1") "shot" "f1" =
      ([⟨"b1", "action", "close up"⟩] : List Block).map
        (fun b => if b.id = "b1" then ⟨"b1", "shot", "close up"⟩ else b) := by
  have h := format_change_transforms_claim3 [⟨"b1", "action", "close up"⟩] "b1" "f1"
    ⟨"b1", "action", "close up"⟩ (by decide)
  exact h.1 (by decide)

/-! ## C1: the highlight merge engine -/

/-- The comment ids carried by a range list, in range order. -/
def rangeIds (ranges : List MergedRange) : List String :=
  ranges.flatMap (fun r => r.commentIds)

theorem coveredByRanges_nil (x : Nat) : ¬ coveredByRanges [] x := by
  simp [coveredByRanges]

theorem coveredByRanges_cons (r : MergedRange) (rs : List MergedRange) (x : Nat) :
    coveredByRanges (r :: rs) x ↔
      (r.start ≤ x ∧ x < r.stop) ∨ coveredByRanges rs x := by
  simp [coveredByRanges]

/-- One merge step neither loses nor invents coverage: merging only happens
between overlapping intervals, whose set union is again an interval. -/
theorem coveredByRanges_addCommentRange (c : CommentAnchor) :
    ∀ (rs : List MergedRange) (x : Nat),
      coveredByRanges (addCommentRange rs c) x ↔
        coveredByRanges rs x ∨ (c.startOffset ≤ x ∧ x < c.endOffset) := by
  intro rs
  induction rs with
  | nil =>
    intro x
    simp [addCommentRange, coveredByRanges]
  | cons r rs ih =>
    intro x
    rw [addCommentRange]
    by_cases hov : c.startOffset < r.stop ∧ c.endOffset > r.start
    · rw [if_pos hov]
      rw [coveredByRanges_cons, coveredByRanges_cons]
      have harith : (min r.start c.startOffset ≤ x ∧ x < max r.stop c.endOffset) ↔
          ((r.start ≤ x ∧ x < r.stop) ∨ (c.startOffset ≤ x ∧ x < c.endOffset)) := by
        omega
      rw [show (⟨min r.start c.startOffset, max r.stop c.endOffset,
        r.commentIds ++ [c.id]⟩ : MergedRange).start = min r.start c.startOffset from rfl]
      rw [show (⟨min r.start c.startOffset, max r.stop c.endOffset,
        r.commentIds ++ [c.id]⟩ : MergedRange).stop = max r.stop c.endOffset from rfl]
      rw [harith]
      tauto
    · rw [if_neg hov]
      rw [coveredByRanges_cons, coveredByRanges_cons, ih x]
      tauto

theorem coveredByComments_cons (c : CommentAnchor) (cs : List CommentAnchor) (x : Nat) :
    coveredByComments (c :: cs) x ↔
      (c.startOffset ≤ x ∧ x < c.endOffset) ∨ coveredByComments cs x := by
  simp [coveredByComments]

/-- Folding the merge loop over a comment list: coverage of the
accumulator plus coverage of the comments. -/
theorem coveredByRanges_foldl :
    ∀ (cs : List CommentAnchor) (acc : List MergedRange) (x : Nat),
      coveredByRanges (cs.foldl addCommentRange acc) x ↔
        coveredByRanges acc x ∨ coveredByComments cs x := by
  intro cs
  induction cs with
  | nil =>
    intro acc x
    simp [coveredByComments]
  | cons c cs ih =>
    intro acc x
    rw [List.foldl_cons, ih, coveredByRanges_addCommentRange, coveredByComments_cons]
    tauto

/-- One merge step appends exactly the new comment's id (up to position). -/
theorem rangeIds_addCommentRange (c : CommentAnchor) :
    ∀ rs : List MergedRange,
      (rangeIds (addCommentRange rs c)).Perm (rangeIds rs ++ [c.id]) := by
  intro rs
  induction rs with
  | nil => simp [addCommentRange, rangeIds]
  | cons r rs ih =>
    rw [addCommentRange]
    by_cases hov : c.startOffset < r.stop ∧ c.endOffset > r.start
    · rw [if_pos hov]
      show ((r.commentIds ++ [c.id]) ++ rangeIds rs).Perm
        ((r.commentIds ++ rangeIds rs) ++ [c.id])
      rw [List.append_assoc, List.append_assoc]
      exact List.Perm.append_left r.commentIds List.perm_append_comm
    · rw [if_neg hov]
      show (r.commentIds ++ rangeIds (addCommentRange rs c)).Perm
        ((r.commentIds ++ rangeIds rs) ++ [c.id])
      rw [List.append_assoc]
      exact List.Perm.append_left r.commentIds ih

/-- The merged ranges carry, as a multiset, exactly the input comment ids. -/
theorem rangeIds_foldl :
    ∀ (cs : List CommentAnchor) (acc : List MergedRange),
      (rangeIds (cs.foldl addCommentRange acc)).Perm
        (rangeIds acc ++ cs.map (fun c => c.id)) := by
  intro cs
  induction cs with
  | nil => intro acc; simp
  | cons c cs ih =>
    intro acc
    rw [List.foldl_cons]
    refine (ih (addCommentRange acc c)).trans ?_
    have h1 := rangeIds_addCommentRange c acc
    refine (h1.append_right (cs.map (fun c => c.id))).trans ?_
    rw [List.append_assoc]
    apply List.Perm.append_left
    simp

/-- A single occurrence among the flattened id lists pins the id to exactly
one range. -/
theorem countP_mem_eq_one_of_count_one (a : String) :
    ∀ l : List MergedRange, (rangeIds l).count a = 1 →
      l.countP (fun r => a ∈ r.commentIds) = 1 := by
  intro l
  induction l with
  | nil => intro h; simp [rangeIds] at h
  | cons r rs ih =>
    intro h
    have hsplit : r.commentIds.count a + (rangeIds rs).count a = 1 := by
      have : rangeIds (r :: rs) = r.commentIds ++ rangeIds rs := rfl
      rw [this, List.count_append] at h
      exact h
    rw [List.countP_cons]
    by_cases hz : r.commentIds.count a = 0
    · have hna : a ∉ r.commentIds := List.count_eq_zero.mp hz
      rw [if_neg (by simpa using hna)]
      rw [ih (by omega)]
    · have hmem : a ∈ r.commentIds := by
        have : 0 < r.commentIds.count a := by omega
        exact List.count_pos_iff.mp this
      rw [if_pos (by simpa using hmem)]
      have hrest : (rangeIds rs).count a = 0 := by omega
      have hnone : ∀ q ∈ rs, a ∉ q.commentIds := by
        intro q hq hmemq
        have : a ∈ rangeIds rs := by
          simp only [rangeIds, List.mem_flatMap]
          exact ⟨q, hq, hmemq⟩
        rw [List.count_eq_zero] at hrest
        exact hrest this
      have : rs.countP (fun r => a ∈ r.commentIds) = 0 := by
        apply List.countP_eq_zero.mpr
        intro q hq
        simpa using hnone q hq
      omega

/-- C1 counterexample: three comments whose merged output contains two
OVERLAPPING ranges — `[5,25)` merges into the first overlapping range
`[0,10)`, widening it over the untouched `[20,30)` — refuting the claim
that the output ranges are pairwise non-overlapping. -/
theorem merge_ranges_claim1_cex :
    mergeRanges [⟨"c1", 0, 10⟩, ⟨"c2", 20, 30⟩, ⟨"c3", 5, 25⟩] =
      [⟨0, 25, ["c1", "c3"]⟩, ⟨20, 30, ["c2"]⟩] ∧
    rangesOverlap (⟨0, 25, ["c1", "c3"]⟩ : MergedRange) ⟨20, 30, ["c2"]⟩ := by
  constructor
  · decide
  · constructor
    · decide
    · decide

/-- C1 as amended: the merge engine's output ranges may overlap one another
(a comment is merged into the FIRST overlapping range only, and existing
ranges are never re-merged); still, the union of the output ranges'
coverage equals the union of the input ranges' coverage, every input
comment id (ids being distinct) appears in exactly one output range, and a
range extended by a merge can absorb a further overlapping comment later in
the pass (witnessed by the third conjunct's concrete run, where `[15,18)`
overlaps only the extension of `[0,10)` by `[8,20)`). -/
theorem merge_ranges_claim1 (comments : List CommentAnchor)
    (hnd : (comments.map (fun c => c.id)).Nodup) :
    (∀ x : Nat, coveredByRanges (mergeRanges comments) x ↔
      coveredByComments comments x) ∧
    (∀ c ∈ comments,
      (mergeRanges comments).countP (fun r => c.id ∈ r.commentIds) = 1) ∧
    mergeRanges [⟨"c1", 0, 10⟩, ⟨"c2", 8, 20⟩, ⟨"c3", 15, 18⟩] =
      [⟨0, 20, ["c1", "c2", "c3"]⟩] := by
  refine ⟨?_, ?_, by decide⟩
  · intro x
    rw [mergeRanges, coveredByRanges_foldl]
    simp [coveredByRanges]
  · intro c hc
    apply countP_mem_eq_one_of_count_one
    have hperm : (rangeIds (mergeRanges comments)).Perm
        (rangeIds [] ++ comments.map (fun c => c.id)) := rangeIds_foldl comments []
    rw [hperm.count_eq]
    have : rangeIds ([] : List MergedRange) ++ comments.map (fun c => c.id) =
        comments.map (fun c => c.id) := rfl
    rw [this]
    exact List.count_eq_one_of_mem hnd (List.mem_map_of_mem _ hc)

/-- Witness for C1's amended theorem at Scenario D's two comments. -/
theorem merge_ranges_claim1_witness :
    (([⟨"c1", 0, 20⟩, ⟨"c2", 15, 30⟩] : List CommentAnchor).map
      (fun c => c.id)).Nodup ∧
    (∀ c ∈ ([⟨"c1", 0, 20⟩, ⟨"c2", 15, 30⟩] : List CommentAnchor),
      (mergeRanges [⟨"c1", 0, 20⟩, ⟨"c2", 15, 30⟩]).countP
        (fun r => c.id ∈ r.commentIds) = 1) := by
  refine ⟨by decide, ?_⟩
  exact (merge_ranges_claim1 [⟨"c1", 0, 20⟩, ⟨"c2", 15, 30⟩] (by decide)).2.1

/-! ## C8: the comment card layout engine -/

theorem packCards_map_fst (margin offset : Int) :
    ∀ (cs : List CommentCard) (acc : Int),
      (packCards margin offset acc cs).map Prod.fst = cs := by
  intro cs
  induction cs with
  | nil => intro acc; simp [packCards]
  | cons c cs ih =>
    intro acc
    rw [packCards]
    simp only [List.map_cons, ih]

/-- Every packed position sits at or below the accumulated bottom it was
packed against (card heights being nonnegative). -/
theorem packCards_pos_ge (margin offset : Int) (hm : 0 ≤ margin) :
    ∀ (cs : List CommentCard) (acc : Int), (∀ c ∈ cs, 0 ≤ c.height) →
      ∀ p ∈ packCards margin offset acc cs, acc ≤ p.2 := by
  intro cs
  induction cs with
  | nil => intro acc hh p hp; simp [packCards] at hp
  | cons c cs ih =>
    intro acc hh p hp
    rw [packCards] at hp
    rcases List.mem_cons.mp hp with hp | hp
    · subst hp
      dsimp only
      by_cases h : c.anchor + offset < acc
      · rw [if_pos h]; omega
      · rw [if_neg h]; omega
    · have hc : 0 ≤ c.height := hh c (by simp)
      have hrest : ∀ c' ∈ cs, 0 ≤ c'.height := fun c' hc' => hh c' (by simp [hc'])
      have := ih _ hrest p hp
      by_cases h : c.anchor + offset < acc
      · rw [if_pos h] at this; omega
      · rw [if_neg h] at this; omega

/-- A packed position is never above the card's aligned position
`anchor + verticalOffset`. -/
theorem packCards_ge_aligned (margin offset : Int) (hm : 0 ≤ margin) :
    ∀ (cs : List CommentCard) (acc : Int),
      ∀ p ∈ packCards margin offset acc cs, p.1.anchor + offset ≤ p.2 := by
  intro cs
  induction cs with
  | nil => intro acc p hp; simp [packCards] at hp
  | cons c cs ih =>
    intro acc p hp
    rw [packCards] at hp
    rcases List.mem_cons.mp hp with hp | hp
    · subst hp
      dsimp only
      by_cases h : c.anchor + offset < acc
      · rw [if_pos h]; omega
      · rw [if_neg h]
    · exact ih _ p hp

/-- Successive packed cards are separated by at least the earlier card's
height plus the margin. -/
theorem packCards_pairwise (margin offset : Int) (hm : 0 ≤ margin) :
    ∀ (cs : List CommentCard) (acc : Int), (∀ c ∈ cs, 0 ≤ c.height) →
      (packCards margin offset acc cs).Pairwise
        (fun a b => a.2 + a.1.height ≤ b.2) := by
  intro cs
  induction cs with
  | nil => intro acc hh; simp [packCards]
  | cons c cs ih =>
    intro acc hh
    have hrest : ∀ c' ∈ cs, 0 ≤ c'.height := fun c' hc' => hh c' (by simp [hc'])
    rw [packCards]
    refine List.Pairwise.cons ?_ (ih _ hrest)
    intro b hb
    have hge := packCards_pos_ge margin offset hm cs _ hrest b hb
    dsimp only
    omega

/-- The source's packing pass is the spec's `accumulatedBottom` fold. -/
theorem packCards_eq_foldl (margin offset : Int) :
    ∀ (cs : List CommentCard) (acc : Int) (out : List (CommentCard × Int)),
      (cs.foldl
        (fun (st : Int × List (CommentCard × Int)) c =>
          let aligned := c.anchor + offset
          let position := if aligned < st.1 then st.1 + margin else aligned
          (position + c.height + margin, st.2 ++ [(c, position)]))
        (acc, out)).2 = out ++ packCards margin offset acc cs := by
  intro cs
  induction cs with
  | nil => intro acc out; simp [packCards]
  | cons c cs ih =>
    intro acc out
    rw [List.foldl_cons, packCards]
    simp only
    rw [ih]
    rw [List.append_assoc]
    rfl

/-- C8: the layout engine packs the comments in ascending anchor order
(the packed list is a permutation of the input, sorted by anchor), equals
the spec's `accumulatedBottom` algorithm, only ever pushes a card down from
its aligned position `anchor + verticalOffset`, and the resulting top
positions place no two cards overlapping. -/
theorem comment_layout_claim8 (cardMargin verticalOffset : Int)
    (comments : List CommentCard) (hm : 0 ≤ cardMargin)
    (hh : ∀ c ∈ comments, 0 ≤ c.height) :
    calculateCommentPositions cardMargin verticalOffset comments =
      specLayout cardMargin verticalOffset comments ∧
    ((calculateCommentPositions cardMargin verticalOffset comments).map
      Prod.fst).Perm comments ∧
    List.Sorted (fun a b => a.anchor ≤ b.anchor)
      ((calculateCommentPositions cardMargin verticalOffset comments).map Prod.fst) ∧
    (∀ p ∈ calculateCommentPositions cardMargin verticalOffset comments,
      p.1.anchor + verticalOffset ≤ p.2) ∧
    (calculateCommentPositions cardMargin verticalOffset comments).Pairwise
      (fun a b => ¬ cardsOverlap a b) := by
  haveI htot : IsTotal CommentCard (fun a b => a.anchor ≤ b.anchor) :=
    ⟨fun a b => Int.le_total a.anchor b.anchor⟩
  haveI htrans : IsTrans CommentCard (fun a b => a.anchor ≤ b.anchor) :=
    ⟨fun a b c hab hbc => le_trans hab hbc⟩
  have hhs : ∀ c ∈ comments.insertionSort (fun a b => a.anchor ≤ b.anchor),
      0 ≤ c.height := by
    intro c hc
    exact hh c ((List.perm_insertionSort (fun a b => a.anchor ≤ b.anchor) comments).mem_iff.mp hc)
  refine ⟨?_, ?_, ?_, ?_, ?_⟩
  · rw [calculateCommentPositions, specLayout, packCards_eq_foldl]
    rfl
  · rw [calculateCommentPositions, packCards_map_fst]
    exact List.perm_insertionSort _ comments
  · rw [calculateCommentPositions, packCards_map_fst]
    exact List.sorted_insertionSort _ comments
  · intro p hp
    exact packCards_ge_aligned cardMargin verticalOffset hm _ 0 p hp
  · refine (packCards_pairwise cardMargin verticalOffset hm _ 0 hhs).imp ?_
    intro a b hab
    rw [cardsOverlap]
    omega

/-- Witness for C8 at Scenario E's five cards (uniform height 140, margin
16, vertical offset −20). -/
theorem comment_layout_claim8_witness :
    ((0 : Int) ≤ 16 ∧
      (∀ c ∈ ([⟨"a", 0, 140⟩, ⟨"b", 50, 140⟩, ⟨"c", 55, 140⟩, ⟨"d", 200, 140⟩,
        ⟨"e", 210, 140⟩] : List CommentCard), (0 : Int) ≤ c.height)) ∧
    (calculateCommentPositions 16 (-20)
      [⟨"a", 0, 140⟩, ⟨"b", 50, 140⟩, ⟨"c", 55, 140⟩, ⟨"d", 200, 140⟩,
        ⟨"e", 210, 140⟩]).Pairwise (fun a b => ¬ cardsOverlap a b) := by
  refine ⟨⟨by norm_num, by decide⟩, ?_⟩
  exact (comment_layout_claim8 16 (-20)
    [⟨"a", 0, 140⟩, ⟨"b", 50, 140⟩, ⟨"c", 55, 140⟩, ⟨"d", 200, 140⟩,
      ⟨"e", 210, 140⟩] (by norm_num) (by decide)).2.2.2.2

/-! ## C10: scene reordering -/

theorem mapGet_mapSet (m : List (String × List Block)) (k k' : String)
    (v : List Block) :
    mapGet (mapSet m k v) k' = if k' = k then some v else mapGet m k' := by
  induction m with
  | nil =>
    by_cases h : k' = k
    · subst h
      simp [mapSet, mapGet]
    · have h' : ¬ (k = k') := fun e => h e.symm
      simp [mapSet, mapGet, h, h']
  | cons a m ih =>
    obtain ⟨ak, av⟩ := a
    rw [mapSet]
    by_cases ha : ak = k
    · rw [if_pos ha]
      subst ha
      by_cases h : k' = ak
      · subst h
        simp [mapGet]
      · have h' : ¬ (ak = k') := fun e => h e.symm
        rw [if_neg h]
        rw [mapGet, mapGet, List.find?_cons, List.find?_cons]
        rw [show (decide ((ak, v).1 = k') : Bool) = false from by simp [h']]
    · rw [if_neg ha]
      by_cases hak : ak = k'
      · subst hak
        rw [if_neg ha]
        rw [mapGet, mapGet, List.find?_cons, List.find?_cons]
        rw [show (decide ((ak, v).1 = ak) : Bool) = true from by simp]
      · have step : mapGet ((ak, av) :: mapSet m k v) k' = mapGet (mapSet m k v) k' := by
          rw [mapGet, mapGet, List.find?_cons]
          rw [show (decide ((ak, av).1 = k') : Bool) = false from by simp [hak]]
        have step2 : mapGet ((ak, av) :: m) k' = mapGet m k' := by
          rw [mapGet, mapGet, List.find?_cons]
          rw [show (decide ((ak, av).1 = k') : Bool) = false from by simp [hak]]
        rw [step, step2, ih]

theorem mapSet_keys (m : List (String × List Block)) (k : String) (v : List Block) :
    ∀ k' ∈ (mapSet m k v).map Prod.fst, k' ∈ m.map Prod.fst ∨ k' = k := by
  induction m with
  | nil => intro k' hk'; simp [mapSet] at hk'; simp [hk']
  | cons a m ih =>
    intro k' hk'
    rw [mapSet] at hk'
    by_cases ha : a.1 = k
    · rw [if_pos ha] at hk'
      simp at hk'
      rcases hk' with hk' | hk'
      · right; exact hk'
      · left; simp [hk']
    · rw [if_neg ha] at hk'
      simp at hk'
      rcases hk' with hk' | hk'
      · left; simp [hk']
      · rcases ih k' (by simpa using hk') with h | h
        · left; simp at h; simp [h]
        · right; exact h

theorem headingIds_cons_of_heading {b : Block} (rest : List Block)
    (hb : isSceneHeading b = true) :
    headingIds (b :: rest) = b.id :: headingIds rest := by
  simp [headingIds, List.filter_cons, hb]

theorem headingIds_cons_of_not {b : Block} (rest : List Block)
    (hb : ¬ isSceneHeading b = true) :
    headingIds (b :: rest) = headingIds rest := by
  simp [headingIds, List.filter_cons, hb]

theorem sceneRun_cons_self {b : Block} (rest : List Block)
    (hb : isSceneHeading b = true) :
    sceneRun (b :: rest) b.id =
      b :: rest.takeWhile (fun x => ¬ isSceneHeading x) := by
  simp [sceneRun, List.dropWhile_cons, hb]

theorem sceneRun_cons_skip {b : Block} (rest : List Block) (sid : String)
    (h : ¬ (isSceneHeading b = true ∧ b.id = sid)) :
    sceneRun (b :: rest) sid = sceneRun rest sid := by
  simp only [sceneRun, List.dropWhile_cons]
  rw [show (decide ¬(isSceneHeading b = true ∧ b.id = sid) : Bool) = true from
    decide_eq_true h]
  simp

theorem sceneRun_eq_nil (sid : String) :
    ∀ bs : List Block, sid ∉ headingIds bs → sceneRun bs sid = [] := by
  intro bs
  induction bs with
  | nil => intro _; simp [sceneRun]
  | cons b rest ih =>
    intro h
    by_cases hb : isSceneHeading b = true
    · rw [headingIds_cons_of_heading rest hb] at h
      rw [sceneRun_cons_skip rest sid (by
        intro hcon
        exact h (by simp [hcon.2]))]
      exact ih (fun hc => h (by simp [hc]))
    · rw [headingIds_cons_of_not rest hb] at h
      rw [sceneRun_cons_skip rest sid (fun hcon => hb hcon.1)]
      exact ih h

theorem takeWhile_nil_of_heading {b : Block} (rest : List Block)
    (hb : isSceneHeading b = true) :
    (b :: rest).takeWhile (fun x => ¬ isSceneHeading x) = [] := by
  simp [List.takeWhile_cons, hb]

theorem takeWhile_cons_of_not {b : Block} (rest : List Block)
    (hb : ¬ isSceneHeading b = true) :
    (b :: rest).takeWhile (fun x => ¬ isSceneHeading x) =
      b :: rest.takeWhile (fun x => ¬ isSceneHeading x) := by
  simp [List.takeWhile_cons, hb]

/-- The grouping pass, characterized: looking up `sid` in the built map
yields the contiguous scene run starting at the heading with id `sid`
(given pairwise-distinct heading ids), the closed pending run when `sid` is
the pending scene, or whatever the initial map held. -/
theorem mapGet_buildSceneBlocksMap :
    ∀ (bs : List Block) (m : List (String × List Block))
      (pending : Option (String × List Block)) (sid : String),
      (headingIds bs).Nodup →
      (∀ pid run, pending = some (pid, run) → pid ∉ headingIds bs) →
      (∀ k ∈ m.map Prod.fst, k ∉ headingIds bs ∧
        ∀ pid run, pending = some (pid, run) → k ≠ pid) →
      mapGet (buildSceneBlocksMap m pending bs) sid =
        if sid ∈ headingIds bs then some (sceneRun bs sid)
        else
          match pending with
          | some (pid, run) =>
            if sid = pid then
              some (run ++ bs.takeWhile (fun b => ¬ isSceneHeading b))
            else mapGet m sid
          | none => mapGet m sid := by
  intro bs
  induction bs with
  | nil =>
    intro m pending sid hnd hp hm
    cases pending with
    | none =>
      show mapGet m sid = if sid ∈ headingIds [] then some (sceneRun [] sid)
        else mapGet m sid
      rw [if_neg (by simp [headingIds] : ¬ sid ∈ headingIds ([] : List Block))]
    | some pr =>
      obtain ⟨pid, run⟩ := pr
      show mapGet (mapSet m pid run) sid =
        if sid ∈ headingIds [] then some (sceneRun [] sid)
        else if sid = pid then
          some (run ++ ([] : List Block).takeWhile (fun b => ¬ isSceneHeading b))
        else mapGet m sid
      rw [mapGet_mapSet]
      rw [if_neg (by simp [headingIds] : ¬ sid ∈ headingIds ([] : List Block))]
      simp
  | cons b rest ih =>
    intro m pending sid hnd hp hm
    by_cases hb : isSceneHeading b = true
    · have hunf : buildSceneBlocksMap m pending (b :: rest) =
          buildSceneBlocksMap (closePending m pending) (some (b.id, [b])) rest := by
        simp only [buildSceneBlocksMap, if_pos hb]
      rw [hunf]
      have hh := headingIds_cons_of_heading rest hb
      rw [hh] at hnd hp
      obtain ⟨hbid, hnd'⟩ := List.nodup_cons.mp hnd
      have hkeys : ∀ k ∈ (closePending m pending).map Prod.fst,
          k ∉ headingIds rest ∧
          ∀ pid run, (some (b.id, [b]) : Option (String × List Block)) = some (pid, run) →
            k ≠ pid := by
        intro k hk
        have hkm : k ∈ m.map Prod.fst ∨
            (∃ pid0 run0, pending = some (pid0, run0) ∧ k = pid0) := by
          cases hpd : pending with
          | none =>
            left
            rw [hpd] at hk
            simpa [closePending] using hk
          | some pr =>
            obtain ⟨pid0, run0⟩ := pr
            rw [hpd] at hk
            rcases mapSet_keys m pid0 run0 k (by simpa [closePending] using hk) with h | h
            · left; exact h
            · right; exact ⟨pid0, run0, rfl, h⟩
        have hnotin : k ∉ b.id :: headingIds rest := by
          rcases hkm with hkm | ⟨pid0, run0, hpd, hke⟩
          · have := (hm k hkm).1
            rwa [hh] at this
          · rw [hke]
            exact hp pid0 run0 hpd
        constructor
        · intro hc
          exact hnotin (by simp [hc])
        · intro pid run he hke
          injection he with he1
          have hpid : pid = b.id := (congrArg Prod.fst he1).symm
          apply hnotin
          rw [hke, hpid]
          exact List.mem_cons_self _ _
      have hrec := ih (closePending m pending) (some (b.id, [b])) sid hnd'
        (by
          intro pid run he
          injection he with he1
          have hpid : pid = b.id := (congrArg Prod.fst he1).symm
          rw [hpid]
          exact hbid)
        hkeys
      dsimp only at hrec
      rw [hrec]
      rw [hh]
      by_cases h1 : sid ∈ headingIds rest
      · rw [if_pos h1, if_pos (by simp [h1])]
        have hne : ¬ (isSceneHeading b = true ∧ b.id = sid) := by
          intro hcon
          exact hbid (hcon.2 ▸ h1)
        rw [sceneRun_cons_skip rest sid hne]
      · rw [if_neg h1]
        by_cases h2 : sid = b.id
        · rw [if_pos h2, if_pos (by simp [h2])]
          subst h2
          rw [sceneRun_cons_self rest hb]
          simp
        · rw [if_neg h2, if_neg (by
            intro hc
            rcases List.mem_cons.mp hc with hc | hc
            · exact h2 hc
            · exact h1 hc)]
          cases hpd : pending with
          | none => rfl
          | some pr =>
            obtain ⟨pid0, run0⟩ := pr
            show mapGet (mapSet m pid0 run0) sid =
              if sid = pid0 then
                some (run0 ++ (b :: rest).takeWhile (fun b => ¬ isSceneHeading b))
              else mapGet m sid
            rw [mapGet_mapSet]
            by_cases h3 : sid = pid0
            · rw [if_pos h3, if_pos h3]
              rw [takeWhile_nil_of_heading rest hb]
              simp
            · rw [if_neg h3, if_neg h3]
    · have hh := headingIds_cons_of_not rest hb
      cases hpd : pending with
      | none =>
        have hunf : buildSceneBlocksMap m none (b :: rest) =
            buildSceneBlocksMap m none rest := by
          simp only [buildSceneBlocksMap, if_neg hb]
        rw [hunf]
        rw [hpd] at hm
        have hrec := ih m none sid (by rwa [hh] at hnd) (by simp)
          (by
            intro k hk
            refine ⟨by
              have := (hm k hk).1
              rwa [hh] at this, ?_⟩
            intro pid run he
            simp at he)
        dsimp only at hrec
        rw [hrec]
        show _ = if sid ∈ headingIds (b :: rest) then some (sceneRun (b :: rest) sid)
          else mapGet m sid
        rw [hh]
        by_cases h1 : sid ∈ headingIds rest
        · rw [if_pos h1, if_pos h1]
          rw [sceneRun_cons_skip rest sid (fun hcon => hb hcon.1)]
        · rw [if_neg h1, if_neg h1]
      | some pr =>
        obtain ⟨pid0, run0⟩ := pr
        have hunf : buildSceneBlocksMap m (some (pid0, run0)) (b :: rest) =
            buildSceneBlocksMap m (some (pid0, run0 ++ [b])) rest := by
          simp only [buildSceneBlocksMap, if_neg hb]
        rw [hunf]
        rw [hpd] at hp hm
        have hrec := ih m (some (pid0, run0 ++ [b])) sid (by rwa [hh] at hnd)
          (by
            intro pid run he
            injection he with he1
            have hpid : pid = pid0 := (congrArg Prod.fst he1).symm
            rw [hpid]
            have := hp pid0 run0 rfl
            rwa [hh] at this)
          (by
            intro k hk
            refine ⟨by
              have := (hm k hk).1
              rwa [hh] at this, ?_⟩
            intro pid run he
            injection he with he1
            have hpid : pid = pid0 := (congrArg Prod.fst he1).symm
            rw [hpid]
            exact (hm k hk).2 pid0 run0 rfl)
        dsimp only at hrec
        rw [hrec]
        show _ = if sid ∈ headingIds (b :: rest) then some (sceneRun (b :: rest) sid)
          else if sid = pid0 then
            some (run0 ++ (b :: rest).takeWhile (fun x => ¬ isSceneHeading x))
          else mapGet m sid
        rw [hh]
        by_cases h1 : sid ∈ headingIds rest
        · rw [if_pos h1, if_pos h1]
          rw [sceneRun_cons_skip rest sid (fun hcon => hb hcon.1)]
        · rw [if_neg h1, if_neg h1]
          by_cases h3 : sid = pid0
          · rw [if_pos h3, if_pos h3]
            rw [takeWhile_cons_of_not rest hb]
            simp
          · rw [if_neg h3, if_neg h3]

theorem headingIds_nodup (blocks : List Block)
    (hnd : (blocks.map Block.id).Nodup) : (headingIds blocks).Nodup := by
  rw [headingIds]
  exact ((List.filter_sublist blocks).map Block.id).nodup hnd

/-- The flat-store grouping of `handleScenesReordered` agrees with the
per-scene contiguous runs. -/
theorem handleScenesReordered_eq_flatMap (blocks : List Block)
    (reorderedScenes : List String) (hnd : (headingIds blocks).Nodup) :
    handleScenesReordered blocks reorderedScenes =
      reorderedScenes.flatMap (fun sid => sceneRun blocks sid) := by
  rw [handleScenesReordered]
  apply List.flatMap_congr
  intro sid _
  have hchar := mapGet_buildSceneBlocksMap blocks [] none sid hnd
    (by simp) (by simp)
  dsimp only at hchar
  rw [hchar]
  by_cases h : sid ∈ headingIds blocks
  · rw [if_pos h]
    rfl
  · rw [if_neg h]
    rw [sceneRun_eq_nil sid blocks h]
    simp [mapGet]

theorem mem_sceneRun_mem_dropWhile (bs : List Block) (sid : String) :
    ∀ x ∈ sceneRun bs sid, x ∈ bs.dropWhile (fun b => ¬ isSceneHeading b) := by
  intro x hx
  have hstep : x ∈ bs.dropWhile (fun b => ¬ (isSceneHeading b ∧ b.id = sid)) := by
    rw [sceneRun] at hx
    rcases hdw : bs.dropWhile (fun b => ¬ (isSceneHeading b ∧ b.id = sid)) with _ | ⟨h, t⟩
    · rw [hdw] at hx
      simp at hx
    · rw [hdw] at hx
      rcases List.mem_cons.mp hx with hx | hx
      · rw [hx]
        exact List.mem_cons_self _ _
      · exact List.mem_cons_of_mem _ ((List.takeWhile_sublist _).subset hx)
  have hsfx : ∀ l : List Block,
      (l.dropWhile (fun b => ¬ (isSceneHeading b ∧ b.id = sid))).IsSuffix
        (l.dropWhile (fun b => ¬ isSceneHeading b)) := by
    intro l
    induction l with
    | nil => simp
    | cons a l ih =>
      by_cases hq : isSceneHeading a = true
      · have hr : (a :: l).dropWhile (fun b => ¬ isSceneHeading b) = a :: l := by
          rw [List.dropWhile_cons, if_neg (by simp [hq])]
        rw [hr]
        exact List.dropWhile_suffix _
      · rw [List.dropWhile_cons, if_pos (by simp [hq])]
        rw [List.dropWhile_cons, if_pos (by simp [hq])]
        exact ih
  exact ((hsfx bs).sublist.subset) hstep

theorem mem_sceneRun_mem (bs : List Block) (sid : String) :
    ∀ x ∈ sceneRun bs sid, x ∈ bs := by
  intro x hx
  exact (List.dropWhile_sublist _).subset (mem_sceneRun_mem_dropWhile bs sid x hx)

theorem takeWhile_dropWhile_id_ne (bs : List Block)
    (hnd : (bs.map Block.id).Nodup) :
    ∀ x ∈ bs.takeWhile (fun b => ¬ isSceneHeading b),
      ∀ y ∈ bs.dropWhile (fun b => ¬ isSceneHeading b), x.id ≠ y.id := by
  intro x hx y hy
  have hsplit := List.takeWhile_append_dropWhile
    (fun b => ¬ isSceneHeading b) bs
  rw [← hsplit, List.map_append] at hnd
  have hdisj := (List.nodup_append.mp hnd).2.2
  intro he
  exact hdisj (List.mem_map_of_mem Block.id hx)
    (he ▸ List.mem_map_of_mem Block.id hy)

/-- Runs of two different scene ids never share a block id. -/
theorem sceneRun_disjoint (sid1 sid2 : String) (hne : sid1 ≠ sid2) :
    ∀ bs : List Block, (bs.map Block.id).Nodup →
      ∀ x ∈ sceneRun bs sid1, ∀ y ∈ sceneRun bs sid2, x.id ≠ y.id := by
  intro bs
  induction bs with
  | nil =>
    intro _ x hx
    simp [sceneRun] at hx
  | cons b rest ih =>
    intro hnd x hx y hy
    rw [List.map_cons] at hnd
    obtain ⟨hbid, hnd'⟩ := List.nodup_cons.mp hnd
    by_cases hb1 : isSceneHeading b = true ∧ b.id = sid1
    · rw [show sid1 = b.id from hb1.2.symm] at hx
      rw [sceneRun_cons_self rest hb1.1] at hx
      rw [sceneRun_cons_skip rest sid2 (by
        intro hcon
        exact hne (hb1.2.symm.trans hcon.2))] at hy
      have hyrest : y ∈ rest := mem_sceneRun_mem rest sid2 y hy
      rcases List.mem_cons.mp hx with hx | hx
      · rw [hx]
        intro he
        exact hbid (he ▸ List.mem_map_of_mem Block.id hyrest)
      · exact takeWhile_dropWhile_id_ne rest hnd' x hx y
          (mem_sceneRun_mem_dropWhile rest sid2 y hy)
    · by_cases hb2 : isSceneHeading b = true ∧ b.id = sid2
      · rw [show sid2 = b.id from hb2.2.symm] at hy
        rw [sceneRun_cons_self rest hb2.1] at hy
        rw [sceneRun_cons_skip rest sid1 (by
          intro hcon
          exact hne (hcon.2.symm.trans hb2.2))] at hx
        have hxrest : x ∈ rest := mem_sceneRun_mem rest sid1 x hx
        rcases List.mem_cons.mp hy with hy | hy
        · rw [hy]
          intro he
          exact hbid (he ▸ List.mem_map_of_mem Block.id hxrest)
        · exact (takeWhile_dropWhile_id_ne rest hnd' y hy x
            (mem_sceneRun_mem_dropWhile rest sid1 x hx)).symm
      · rw [sceneRun_cons_skip rest sid1 hb1] at hx
        rw [sceneRun_cons_skip rest sid2 hb2] at hy
        exact ih hnd' x hx y hy

/-- C10: with pairwise-distinct block ids, scene reordering produces
exactly the concatenation, in the new order, of each listed scene's
contiguous block run; no block preceding the first scene heading appears in
the result, and no block of a scene absent from the reordered list
appears. -/
theorem scenes_reordered_claim10 (blocks : List Block)
    (reorderedScenes : List String) (hnd : (blocks.map Block.id).Nodup) :
    handleScenesReordered blocks reorderedScenes =
      reorderedScenes.flatMap (fun sid => sceneRun blocks sid) ∧
    (∀ b0 ∈ blocks.takeWhile (fun b => ¬ isSceneHeading b),
      ∀ r ∈ handleScenesReordered blocks reorderedScenes, r.id ≠ b0.id) ∧
    (∀ h ∈ blocks, isSceneHeading h = true → h.id ∉ reorderedScenes →
      ∀ b0 ∈ sceneRun blocks h.id,
        ∀ r ∈ handleScenesReordered blocks reorderedScenes, r.id ≠ b0.id) := by
  have heq := handleScenesReordered_eq_flatMap blocks reorderedScenes
    (headingIds_nodup blocks hnd)
  refine ⟨heq, ?_, ?_⟩
  · intro b0 hb0 r hr
    rw [heq] at hr
    obtain ⟨sid, _, hrrun⟩ := List.mem_flatMap.mp hr
    exact (takeWhile_dropWhile_id_ne blocks hnd b0 hb0 r
      (mem_sceneRun_mem_dropWhile blocks sid r hrrun)).symm
  · intro h _ _ hnotin b0 hb0 r hr
    rw [heq] at hr
    obtain ⟨sid, hsid, hrrun⟩ := List.mem_flatMap.mp hr
    have hsne : sid ≠ h.id := fun e => hnotin (e ▸ hsid)
    exact sceneRun_disjoint sid h.id hsne blocks hnd r hrrun b0 hb0

/-- Witness for C10 at a concrete store with a pre-heading block, two
scenes and a reversed order. -/
theorem scenes_reordered_claim10_witness :
    (([⟨"x", "action", "pre"⟩, ⟨"s1", "scene-heading", "INT. A"⟩,
      ⟨"a1", "action", "a"⟩, ⟨"s2", "scene-heading", "INT. B"⟩,
      ⟨"a2", "action", "b"⟩] : List Block).map Block.id).Nodup ∧
    handleScenesReordered
      [⟨"x", "action", "pre"⟩, ⟨"s1", "scene-heading", "INT. A"⟩,
        ⟨"a1", "action", "a"⟩, ⟨"s2", "scene-heading", "INT. B"⟩,
        ⟨"a2", "action", "b"⟩] ["s2", "s1"] =
      (["s2", "s1"] : List String).flatMap
        (fun sid => sceneRun
          [⟨"x", "action", "pre"⟩, ⟨"s1", "scene-heading", "INT. A"⟩,
            ⟨"a1", "action", "a"⟩, ⟨"s2", "scene-heading", "INT. B"⟩,
            ⟨"a2", "action", "b"⟩] sid) := by
  refine ⟨by decide, ?_⟩
  exact (scenes_reordered_claim10
    [⟨"x", "action", "pre"⟩, ⟨"s1", "scene-heading", "INT. A"⟩,
      ⟨"a1", "action", "a"⟩, ⟨"s2", "scene-heading", "INT. B"⟩,
      ⟨"a2", "action", "b"⟩] ["s2", "s1"] (by decide)).1
